import Mathlib

/-!
Shallow embedding of the ledger core of `dsctt/go-blockchain`:
the transaction model (`core/types/transaction.go`), the chain store
(`chaindb/db.go`), the address codec (`wallet`, file `src/unnamed/part_000`)
and the wallet collection (`wallet/wallets.go`).

Go bytes are modelled as `List Nat` (each entry `< 256` where it matters),
Go `int` as `Int`, Go maps as association lists.  A Go call either returns
normally or `log.Panic`s; this is captured by `GoOutcome`: `.ok` is a normal
return and `.panicked` models a `panic`/`log.Panic`, which is process-fatal
(nothing in this program recovers), as opposed to an error value returned to
the caller.
-/

namespace GoBlockchain

/-- Outcome of a Go call: a normal return, or a (process-fatal) panic.
A Go function that also returns an `error` value to its caller carries that
error inside the `.ok` payload as an `Option GoError`. -/
inductive GoOutcome (α : Type) where
  | ok : α → GoOutcome α
  | panicked : String → GoOutcome α
  deriving Repr, DecidableEq

/-- Map over the normal-return payload of a `GoOutcome`. -/
def GoOutcome.map {α β : Type} (f : α → β) : GoOutcome α → GoOutcome β
  | .ok a => .ok (f a)
  | .panicked m => .panicked m

/-- Go `error` values that this program distinguishes. -/
inductive GoError where
  | notExist
  | keyNotFound
  | ioError (msg : String)
  deriving Repr, DecidableEq

/-- The message carried by a `GoError` (what `log.Panic(err)` would print). -/
def GoError.message : GoError → String
  | .notExist => "file does not exist"
  | .keyNotFound => "Key not found"
  | .ioError m => m

/-- Modelled from the spec: `common/errutil.HandleErr` (not under `src/`).
Per the spec's error-handling notes the program exhibits terminate-on-any-
failure behavior: a non-nil error is passed to `log.Panic`, so the call is
process-fatal; a nil error lets the surrounding computation continue with
its value. -/
def HandleErr {α : Type} (err : Option GoError) (a : α) : GoOutcome α :=
  match err with
  | none => .ok a
  | some e => .panicked e.message

/-! ## Transaction model (`core/types/transaction.go`) -/

/-- `TxInput` is a reference to a previous `TxOutput`
(`transaction.go` lines 30-34). -/
structure TxInput where
  txID : List Nat
  outputIndex : Int
  sig : String
  deriving Repr, DecidableEq, Inhabited

/-- `TxOutput` specifies coin value made available to a user
(`transaction.go` lines 40-43). -/
structure TxOutput where
  amount : Int
  pubKey : String
  deriving Repr, DecidableEq, Inhabited

/-- `Transaction` placed in Blocks (`transaction.go` lines 19-23). -/
structure Transaction where
  id : List Nat
  inputs : List TxInput
  outputs : List TxOutput
  deriving Repr, DecidableEq, Inhabited

/-- Modelled stand-in for `dbutil.Serialize` applied to a transaction whose
`ID` is still nil (gob encoding; `chaindb/dbutil` is not under `src/`).
The claims never depend on the byte content of the encoding, only on its
being a deterministic function of the inputs and outputs; this model encodes
the fields length-prefixed. -/
def serializeTx (inputs : List TxInput) (outputs : List TxOutput) : List Nat :=
  inputs.length ::
    (inputs.flatMap fun i =>
      i.txID.length :: i.txID ++ [(i.outputIndex + 1000000).toNat, i.sig.length]) ++
  outputs.length ::
    (outputs.flatMap fun o => [(o.amount + 1000000).toNat, o.pubKey.length])

/-- Modelled stand-in for the external library `crypto/sha256`:
a deterministic function of the input producing 32 bytes, each `< 256`.
No claim depends on the actual SHA-256 output bits, only on determinism,
output length and bytes being bytes. -/
def sha256Model (data : List Nat) : List Nat :=
  let seed := data.foldl (fun acc b => (acc * 131 + b % 256 + 1) % 1000000007) 17
  (List.range 32).map fun i => (seed + 31 * i) % 256

/-- `setID` folded into construction: `initTransaction` instantiates the
transaction and computes its ID as the hash of the serialized ID-less
transaction (`transaction.go` lines 51-55 and 107-113). -/
def initTransaction (inputs : List TxInput) (outputs : List TxOutput) : Transaction :=
  { id := sha256Model (serializeTx inputs outputs), inputs := inputs, outputs := outputs }

/-- Value of a hex digit, as in `encoding/hex`. -/
def hexCharVal (c : Char) : Option Nat :=
  if '0' ≤ c ∧ c ≤ '9' then some (c.toNat - '0'.toNat)
  else if 'a' ≤ c ∧ c ≤ 'f' then some (c.toNat - 'a'.toNat + 10)
  else if 'A' ≤ c ∧ c ≤ 'F' then some (c.toNat - 'A'.toNat + 10)
  else none

/-- `encoding/hex.DecodeString` on the character list of the string:
pairs of hex digits become bytes; an odd length or a non-hex digit fails. -/
def hexDecode : List Char → Option (List Nat)
  | [] => some []
  | [_] => none
  | c1 :: c2 :: rest => do
    let hi ← hexCharVal c1
    let lo ← hexCharVal c2
    let more ← hexDecode rest
    pure ((hi * 16 + lo) :: more)

/-- The input-building loop of `CreateTransaction` (`transaction.go`
lines 74-81): for each `(txID, utxoIdxs)` entry, hex-decode the txID
(`errutil.HandleErr` panics on a malformed txID) and emit one `TxInput` per
index, with `Sig` set to the sender.  Go map iteration order is
unspecified; the model uses the list order of the association list, which
no claim depends on. -/
def buildInputs (fromAddr : String) : List (String × List Int) → GoOutcome (List TxInput)
  | [] => .ok []
  | (txID, utxoIdxs) :: rest =>
    match hexDecode txID.toList with
    | none => .panicked "encoding/hex: invalid byte"
    | some txIDBytes =>
      match buildInputs fromAddr rest with
      | .ok more => .ok (utxoIdxs.map (fun idx => ⟨txIDBytes, idx, fromAddr⟩) ++ more)
      | .panicked m => .panicked m

/-- `CreateTransaction` (`transaction.go` lines 65-92): panics with
"Error: Not enough funds" when `txoSum < amount`; otherwise builds the
inputs from the utxo map, the primary output `{amount, to}`, a change
output `{txoSum - amount, from}` iff `txoSum > amount`, and assigns the ID. -/
def CreateTransaction (fromAddr toAddr : String) (amount txoSum : Int)
    (utxos : List (String × List Int)) : GoOutcome Transaction :=
  if txoSum < amount then .panicked "Error: Not enough funds"
  else
    match buildInputs fromAddr utxos with
    | .panicked m => .panicked m
    | .ok newInputs =>
      let newOutputs :=
        TxOutput.mk amount toAddr ::
          (if txoSum > amount then [TxOutput.mk (txoSum - amount) fromAddr] else [])
      .ok (initTransaction newInputs newOutputs)

/-- `CoinbaseTx` (`transaction.go` lines 98-104): one input referencing no
output (empty txID, index `-1`), one output of 100 units to the recipient. -/
def CoinbaseTx (toAddr : String) : Transaction :=
  let value : Int := 100
  let txin : TxInput := ⟨[], -1, toString value ++ " coins to " ++ toAddr⟩
  let txout : TxOutput := ⟨value, toAddr⟩
  initTransaction [txin] [txout]

/-- `IsCoinbase` (`transaction.go` lines 118-120). -/
def Transaction.IsCoinbase (tx : Transaction) : Bool :=
  tx.inputs.length == 1 && (tx.inputs.headI.txID.length == 0
    && tx.inputs.headI.outputIndex == -1)

/-- `CanUnlock` (`transaction.go` lines 126-128). -/
def TxInput.CanUnlock (txin : TxInput) (newSig : String) : Bool :=
  txin.sig == newSig

/-- `CanBeUnlocked` (`transaction.go` lines 134-136). -/
def TxOutput.CanBeUnlocked (txout : TxOutput) (newPubKey : String) : Bool :=
  txout.pubKey == newPubKey

/-! ## Chain store (`chaindb/db.go`)

The badger store is modelled as an association list from key bytes to value
bytes; `storeSet` prepends and `storeGet` takes the most recent binding, so
a `Set` on an existing key overwrites it.  A badger transaction body is a
state function on the store; `View`/`Update` run the body, `Update`
committing its writes (the code's two `txn.Set` calls execute inside a
single `database.Update`, so the model makes the whole body one atomic
state transition). -/

/-- Modelled from the spec: `types.Block` (`core/types/block.go` is not
under `src/`) — "{hash, previousHash, transactions, …}; Hash is the store
key".  Only the hash and previous-hash fields matter to the chain-store
claims; the rest of the record is abstracted into `payload`. -/
structure Block where
  hash : List Nat
  prevHash : List Nat
  payload : List Nat
  deriving Repr, DecidableEq, Inhabited

/-- Modelled from the spec: `dbutil.SerializeBlock` (not under `src/`) — a
self-describing binary encoding of the block record.  The model length-
prefixes each field behind a leading tag byte `0`. -/
def SerializeBlock (b : Block) : List Nat :=
  0 :: b.hash.length :: (b.hash ++ b.prevHash.length :: (b.prevHash ++ b.payload.length :: b.payload))

/-- Modelled from the spec: `dbutil.DeserializeBlock` (not under `src/`) —
partial inverse of `SerializeBlock`; any other byte shape fails to decode. -/
def DeserializeBlock (data : List Nat) : Option Block :=
  match data with
  | 0 :: hl :: rest =>
    if hl ≤ rest.length then
      let hash := rest.take hl
      match rest.drop hl with
      | pl :: rest2 =>
        if pl ≤ rest2.length then
          let prev := rest2.take pl
          match rest2.drop pl with
          | dl :: rest3 =>
            if rest3.length = dl then some ⟨hash, prev, rest3⟩ else none
          | [] => none
        else none
      | [] => none
    else none
  | _ => none

/-- The key-value state of the badger store: most recent binding first. -/
abbrev Store := List (List Nat × List Nat)

/-- The empty (freshly created) store. -/
def emptyStore : Store := []

/-- Look a key up in the store (most recent binding wins). -/
def storeGet (s : Store) (k : List Nat) : Option (List Nat) :=
  match s.find? (fun p => p.1 == k) with
  | some p => some p.2
  | none => none

/-- Write a key into the store, shadowing any previous binding. -/
def storeSet (s : Store) (k v : List Nat) : Store := (k, v) :: s

/-- A badger transaction body: a state function on the store. -/
def BTxn (α : Type) : Type := Store → α × Store

/-- Return a value from a transaction body without touching the store. -/
def btxnPure {α : Type} (a : α) : BTxn α := fun s => (a, s)

/-- Sequence two steps of a transaction body. -/
def btxnBind {α β : Type} (m : BTxn α) (f : α → BTxn β) : BTxn β :=
  fun s => let (a, s') := m s; f a s'

/-- `txn.Get`: read a key; `none` models `badger.ErrKeyNotFound`. -/
def txnGet (k : List Nat) : BTxn (Option (List Nat)) :=
  fun s => (storeGet s k, s)

/-- `txn.Set`: write a key. -/
def txnSet (k v : List Nat) : BTxn Unit :=
  fun s => ((), storeSet s k v)

/-- Run a transaction body against the store (`database.View` /
`database.Update`; in this sequential model both commit the body's state,
and a `View` body contains no `txnSet`, so it cannot change it). -/
def runTxn {α : Type} (body : BTxn α) (s : Store) : α × Store := body s

/-- The bytes of the reserved tip key `"lastHashKey"` (`db.go` line 24). -/
def lastHashKeyBytes : List Nat := "lastHashKey".toList.map Char.toNat

/-- `HasChain` (`db.go` lines 44-56): the `View` body reports whether the
tip key exists but also returns `badger.ErrKeyNotFound` from the closure in
the not-found case; the closure's error is then passed to
`errutil.HandleErr` outside the `View`. -/
def HasChain (db : Store) : GoOutcome Bool × Store :=
  let (res, s') := runTxn
    (btxnBind (txnGet lastHashKeyBytes) fun r =>
      match r with
      | none => btxnPure (false, some GoError.keyNotFound)
      | some _ => btxnPure (true, (none : Option GoError))) db
  (HandleErr res.2 res.1, s')

/-- `GetLastHash` (`db.go` lines 61-74): the `View` body gets the tip key
and `errutil.HandleErr`s the error inside the closure, so a missing tip key
panics; on success the item's value is the stored hash. -/
def GetLastHash (db : Store) : GoOutcome (List Nat) × Store :=
  runTxn
    (btxnBind (txnGet lastHashKeyBytes) fun r =>
      match r with
      | none => btxnPure (HandleErr (some GoError.keyNotFound) ([] : List Nat))
      | some v => btxnPure (GoOutcome.ok v)) db

/-- `GetBlockWithHash` (`db.go` lines 80-94): the `View` body gets the
block key (`errutil.HandleErr` panics when it is absent) and deserializes
the stored value (a gob decode failure is likewise fatal). -/
def GetBlockWithHash (db : Store) (hash : List Nat) : GoOutcome Block × Store :=
  runTxn
    (btxnBind (txnGet hash) fun r =>
      match r with
      | none => btxnPure (HandleErr (some GoError.keyNotFound) (default : Block))
      | some v =>
        match DeserializeBlock v with
        | none => btxnPure (GoOutcome.panicked "gob: block decode failed")
        | some b => btxnPure (GoOutcome.ok b)) db

/-- `SaveNewLastBlock` (`db.go` lines 99-109): one `database.Update` whose
body sets the block under its own hash key and then rewrites the tip key to
that hash; the in-memory sets cannot fail, so the call returns normally. -/
def SaveNewLastBlock (db : Store) (newBlock : Block) : GoOutcome Unit × Store :=
  let (_, s') := runTxn
    (btxnBind (txnSet newBlock.hash (SerializeBlock newBlock)) fun _ =>
      txnSet lastHashKeyBytes newBlock.hash) db
  (GoOutcome.ok (), s')

/-- One call against the chain store, for quantifying over call sequences. -/
inductive ChainOp where
  | hasChainOp
  | getLastHashOp
  | getBlockOp (hash : List Nat)
  | saveOp (b : Block)
  deriving Repr, DecidableEq

/-- The store left behind by one chain-store call. -/
def runOp (s : Store) : ChainOp → Store
  | .hasChainOp => (HasChain s).2
  | .getLastHashOp => (GetLastHash s).2
  | .getBlockOp h => (GetBlockWithHash s h).2
  | .saveOp b => (SaveNewLastBlock s b).2

/-- The store left behind by a sequence of chain-store calls. -/
def runOps (s : Store) : List ChainOp → Store
  | [] => s
  | op :: rest => runOps (runOp s op) rest

/-- The tip key, when present, names a hash that is itself present as a key
of the store (decidable form of the spec's tip invariant). -/
def tipValidB (s : Store) : Bool :=
  match storeGet s lastHashKeyBytes with
  | none => true
  | some h => (storeGet s h).isSome

/-! ## Address codec (`src/unnamed/part_000`, package `wallet`) -/

/-- Modelled stand-in for the external library `golang.org/x/crypto/ripemd160`:
a deterministic function of the input producing 20 bytes, each `< 256`. -/
def ripemd160Model (data : List Nat) : List Nat :=
  let seed := data.foldl (fun acc b => (acc * 257 + b % 256 + 3) % 998244353) 29
  (List.range 20).map fun i => (seed + 53 * i) % 256

/-- `ChecksumLen` (`part_000` line 17). -/
def ChecksumLen : Nat := 4

/-- `version` of the address generation algorithm (`part_000` line 19). -/
def version : Nat := 0

/-- `HashPubKey` (`part_000` lines 85-95): RIPEMD-160 of SHA-256 of the
public key. -/
def HashPubKey (pubKey : List Nat) : List Nat :=
  ripemd160Model (sha256Model pubKey)

/-- `checksum` (`part_000` lines 101-106): first `ChecksumLen` bytes of the
double SHA-256 of the payload. -/
def checksum (payload : List Nat) : List Nat :=
  (sha256Model (sha256Model payload)).take ChecksumLen

/-- The bitcoin base58 alphabet. -/
def b58Alphabet : List Char :=
  "123456789ABCDEFGHJKLMNPQRSTUVWXYZabcdefghijkmnopqrstuvwxyz".toList

/-- Character for a base58 digit. -/
def b58EncodeChar (d : Nat) : Char := b58Alphabet.getD d '1'

/-- Base58 digit of a character (the alphabet length, 58, for a character
outside the alphabet). -/
def b58DecodeChar (c : Char) : Nat := b58Alphabet.indexOf c

/-- Little-endian digit expansion in base `b` with explicit fuel, so that
it is structural recursion and evaluates inside the kernel. -/
def digitsFuel (b : Nat) : Nat → Nat → List Nat
  | 0, _ => []
  | fuel + 1, n => if n = 0 then [] else n % b :: digitsFuel b fuel (n / b)

/-- Little-endian digit expansion in base `b` (agrees with `Nat.digits` for
`1 < b`, see `digitsLE_eq_digits`). -/
def digitsLE (b n : Nat) : List Nat := digitsFuel b n n

/-- Big-endian byte interpretation of a byte list. -/
def bytesToNat (bs : List Nat) : Nat := Nat.ofDigits 256 bs.reverse

/-- Big-endian byte expansion of a natural number (no leading zeros). -/
def natToBytes (n : Nat) : List Nat := (digitsLE 256 n).reverse

/-- Big-endian base58 digit expansion of a natural number. -/
def natToB58 (n : Nat) : List Nat := (digitsLE 58 n).reverse

/-- Value of a big-endian base58 digit list. -/
def b58ToNat (ds : List Nat) : Nat := Nat.ofDigits 58 ds.reverse

/-- Modelled from the spec: `walletutil.Base58Encode` (not under `src/`) —
"base58-style address encode": the byte string is read as a big-endian
number written in base58, with one leading `'1'` per leading zero byte. -/
def Base58Encode (input : List Nat) : String :=
  let zeros := input.takeWhile (fun b => b == 0)
  let digits := natToB58 (bytesToNat input)
  String.mk (zeros.map (fun _ => '1') ++ digits.map b58EncodeChar)

/-- Modelled from the spec: `walletutil.Base58Decode` (not under `src/`) —
inverse direction: leading `'1'`s become leading zero bytes and the rest is
read as a base58 number. -/
def Base58Decode (input : String) : List Nat :=
  let cs := input.toList
  let zeros := cs.takeWhile (fun c => c == '1')
  let rest := cs.dropWhile (fun c => c == '1')
  zeros.map (fun _ => 0) ++ natToBytes (b58ToNat (rest.map b58DecodeChar))

/-- `GetAddress` (`part_000` lines 57-65), phrased on the wallet's public
key bytes: base58 of version byte ‖ pub key hash ‖ checksum of the
versioned hash. -/
def GetAddress (publicKey : List Nat) : String :=
  let pubKeyHash := HashPubKey publicKey
  let versionedHash := version :: pubKeyHash
  let cs := checksum versionedHash
  let fullHash := versionedHash ++ cs
  Base58Encode fullHash

/-- `ValidateAddress` (`part_000` lines 71-79): decode, split off the
trailing `ChecksumLen` bytes, recompute the checksum of the head and
compare.  In Go, `decodedAddress[len-ChecksumLen:]` with a decoded payload
shorter than `ChecksumLen` bytes has a negative slice bound and panics at
runtime; the model returns `.panicked` exactly there. -/
def ValidateAddress (address : String) : GoOutcome Bool :=
  let decodedAddress := Base58Decode address
  if decodedAddress.length < ChecksumLen then
    .panicked "runtime error: slice bounds out of range"
  else
    let addressChecksum := decodedAddress.drop (decodedAddress.length - ChecksumLen)
    let targetChecksum := checksum (decodedAddress.take (decodedAddress.length - ChecksumLen))
    .ok (addressChecksum == targetChecksum)

/-- `GetPubKeyHashFromAddress` (`part_000` lines 112-116). -/
def GetPubKeyHashFromAddress (address : String) : List Nat :=
  let decodedAddress := Base58Decode address
  (decodedAddress.drop 1).take (decodedAddress.length - ChecksumLen - 1)

/-! ## Wallet collection (`wallet/wallets.go`) -/

/-- `Wallet` (`part_000` lines 26-29).  The ECDSA private key is external
library material (`crypto/ecdsa`); the model keeps it as an opaque number,
which no claim inspects. -/
structure Wallet where
  privateKey : Nat
  publicKey : List Nat
  deriving Repr, DecidableEq, Inhabited

/-- `Wallets` (`wallets.go` lines 19-21): the address → wallet map,
modelled as an association list. -/
structure Wallets where
  wallets : List (String × Wallet)
  deriving Repr, DecidableEq, Inhabited

/-- `GetWallet` (`wallets.go` lines 64-66): `*ws.Wallets[address]`.  A Go
map lookup on an absent key yields the zero value of `*Wallet`, a nil
pointer, and dereferencing it panics at runtime. -/
def Wallets.GetWallet (ws : Wallets) (address : String) : GoOutcome Wallet :=
  match ws.wallets.find? (fun p => p.1 == address) with
  | some p => .ok p.2
  | none => .panicked "runtime error: invalid memory address or nil pointer dereference"

/-- The wallet snapshot file `./tmp/wallets.dat`: absent, or its bytes. -/
abbrev SnapshotFile := Option (List Nat)

/-- Decode a length-prefixed byte field. -/
def decodeBytesField (l : List Nat) : Option (List Nat × List Nat) :=
  match l with
  | [] => none
  | n :: rest => if n ≤ rest.length then some (rest.take n, rest.drop n) else none

/-- Decode a length-prefixed string field. -/
def decodeStringField (l : List Nat) : Option (String × List Nat) :=
  match decodeBytesField l with
  | none => none
  | some (bs, rest) => some (String.mk (bs.map Char.ofNat), rest)

/-- Decode `count` wallet records (address, public key, private key). -/
def decodeRecords : Nat → List Nat → Option (List (String × Wallet) × List Nat)
  | 0, l => some ([], l)
  | k + 1, l => do
    let (addr, r1) ← decodeStringField l
    let (pub, r2) ← decodeBytesField r1
    match r2 with
    | [] => none
    | priv :: r3 => do
      let (more, r4) ← decodeRecords k r3
      pure ((addr, ⟨priv, pub⟩) :: more, r4)

/-- Modelled from the spec: the gob decoding of the wallet snapshot
(`encoding/gob` is external; the spec requires a self-describing encoding
that round-trips the address → wallet map).  The model reads a record-count
prefix and then that many records, and fails on any other byte shape — in
particular on the empty byte string. -/
def decodeWallets (data : List Nat) : Option (List (String × Wallet)) :=
  match data with
  | [] => none
  | count :: rest =>
    match decodeRecords count rest with
    | some (ws, []) => some ws
    | _ => none

/-- `LoadFromFile` (`wallets.go` lines 71-89): a missing snapshot file is
detected via `os.Stat`/`os.IsNotExist` and the **stat error is returned**
to the caller, with the receiver's map left as it was; otherwise the file
is read (`errutil.HandleErr` on the read error — the model's in-memory file
always reads) and gob-decoded, `errutil.HandleErr` panicking on a decode
failure; on success the decoded map replaces the receiver's map and `nil`
is returned. -/
def LoadFromFile (current : List (String × Wallet)) (file : SnapshotFile) :
    GoOutcome (List (String × Wallet) × Option GoError) :=
  match file with
  | none => .ok (current, some GoError.notExist)
  | some data =>
    match decodeWallets data with
    | none => .panicked "gob: wallets decode failed"
    | some ws => .ok (ws, none)

/-- `InitWallets` (`wallets.go` lines 27-34): start from an empty map, run
`LoadFromFile`, and return the collection together with whatever error
`LoadFromFile` returned. -/
def InitWallets (file : SnapshotFile) : GoOutcome (Wallets × Option GoError) :=
  match LoadFromFile [] file with
  | .ok (m, err) => .ok (⟨m⟩, err)
  | .panicked msg => .panicked msg

/-! ## Theorems -/

/-- C2 (amended): for every call with `availableAmount < amount`,
construction fails before any input or output is built — but via the
process-fatal `log.Panic("Error: Not enough funds")`, not an error value
returned to the caller (the Go signature returns only `*Transaction`) —
and no transaction is produced. -/
theorem createTransaction_insufficientFunds_fatal (fromAddr toAddr : String)
    (amount txoSum : Int) (utxos : List (String × List Int))
    (h : txoSum < amount) :
    CreateTransaction fromAddr toAddr amount txoSum utxos =
      GoOutcome.panicked "Error: Not enough funds" := by
  simp [CreateTransaction, h]

/-- Witness for `createTransaction_insufficientFunds_fatal` at a concrete
underfunded call. -/
theorem createTransaction_insufficientFunds_fatal_witness :
    ((3 : Int) < 9) ∧
    CreateTransaction "S" "R" 9 3 [("ff", [2])] =
      GoOutcome.panicked "Error: Not enough funds" :=
  ⟨by norm_num,
    createTransaction_insufficientFunds_fatal "S" "R" 9 3 [("ff", [2])] (by norm_num)⟩

/-- C2 counterexample: `NewTransaction("A","B",100,50,∅)` does not return an
`InsufficientFunds` error value to its caller — its outcome is the
process-fatal `log.Panic` (`GoOutcome.panicked`), refuting the claim's
"returned to the caller (never process-fatal)". -/
theorem createTransaction_insufficientFunds_cex :
    CreateTransaction "A" "B" 100 50 [] =
      GoOutcome.panicked "Error: Not enough funds" := by decide

/-- C1 (amended): for every call with `availableAmount ≥ amount` that
constructs a transaction, the outputs are exactly the primary output
`{amount, to}` followed by a change output `{availableAmount - amount, from}`
iff `availableAmount > amount`; hence the outputs sum to `availableAmount`,
and exactly one output pays `to` exactly `amount` — except in the degenerate
case `from = to` with `availableAmount = 2·amount > amount`, where the
primary and change outputs coincide in amount and recipient and two such
outputs exist. -/
theorem createTransaction_outputs_characterization
    (fromAddr toAddr : String) (amount txoSum : Int)
    (utxos : List (String × List Int)) (tx : Transaction)
    (hge : amount ≤ txoSum)
    (hok : CreateTransaction fromAddr toAddr amount txoSum utxos = GoOutcome.ok tx) :
    tx.outputs = TxOutput.mk amount toAddr ::
        (if txoSum > amount then [TxOutput.mk (txoSum - amount) fromAddr] else []) ∧
    (tx.outputs.map TxOutput.amount).sum = txoSum ∧
    ((TxOutput.mk (txoSum - amount) fromAddr ∈ tx.outputs.drop 1) ↔ amount < txoSum) ∧
    (¬(fromAddr = toAddr ∧ txoSum = 2 * amount ∧ amount < txoSum) →
      tx.outputs.countP (fun o => o.pubKey == toAddr && o.amount == amount) = 1) := by
  simp only [CreateTransaction, if_neg (not_lt.mpr hge)] at hok
  cases hbi : buildInputs fromAddr utxos with
  | panicked m => rw [hbi] at hok; cases hok
  | ok ins =>
    rw [hbi] at hok
    injection hok with h
    subst h
    refine ⟨rfl, ?_, ?_, ?_⟩
    · by_cases hgt : txoSum > amount
      · simp only [initTransaction, if_pos hgt, List.map_cons, List.map_nil,
          List.sum_cons, List.sum_nil]
        omega
      · simp only [initTransaction, if_neg hgt, List.map_cons, List.map_nil,
          List.sum_cons, List.sum_nil]
        omega
    · by_cases hgt : txoSum > amount
      · simp only [initTransaction, if_pos hgt, List.drop_succ_cons, List.drop_zero,
          List.mem_singleton]
        exact iff_of_true trivial hgt
      · simp only [initTransaction, if_neg hgt, List.drop_succ_cons, List.drop_zero,
          List.not_mem_nil, false_iff]
        omega
    · intro hprov
      by_cases hgt : txoSum > amount
      · have hc : ((TxOutput.mk (txoSum - amount) fromAddr).pubKey == toAddr &&
            (TxOutput.mk (txoSum - amount) fromAddr).amount == amount) = false := by
          by_cases hft : fromAddr = toAddr
          · have hne : txoSum - amount ≠ amount := fun he =>
              hprov ⟨hft, by omega, hgt⟩
            simp [hft, hne]
          · simp [hft]
        simp only [initTransaction, if_pos hgt, List.countP_cons, List.countP_nil, hc]
        simp
      · simp only [initTransaction, if_neg hgt, List.countP_cons, List.countP_nil]
        simp

/-- Witness for `createTransaction_outputs_characterization` at a concrete
funded call: the outputs of `NewTransaction("C","D",2,7,{"ab":[0]})` sum to
the available amount 7. -/
theorem createTransaction_outputs_characterization_witness :
    ((2 : Int) ≤ 7) ∧
    (CreateTransaction "C" "D" 2 7 [("ab", [0])]).map
        (fun tx => (tx.outputs.map TxOutput.amount).sum) = GoOutcome.ok 7 := by
  have hok : CreateTransaction "C" "D" 2 7 [("ab", [0])] =
      GoOutcome.ok (initTransaction [⟨[171], 0, "C"⟩]
        [TxOutput.mk 2 "D", TxOutput.mk 5 "C"]) := by decide
  have h := createTransaction_outputs_characterization "C" "D" 2 7 [("ab", [0])] _
    (by norm_num) hok
  exact ⟨by norm_num, by rw [hok, GoOutcome.map]; rw [h.2.1]⟩

/-- C1 counterexample: `NewTransaction("A","A",1,2,∅)` is a call with
`availableAmount ≥ amount` whose constructed transaction has **two**
outputs paying `to` exactly `amount`, refuting "exactly one output pays
`to` exactly `amount`". -/
theorem createTransaction_outputs_cex :
    (CreateTransaction "A" "A" 1 2 []).map
        (fun tx => tx.outputs.countP (fun o => o.pubKey == "A" && o.amount == 1)) =
      GoOutcome.ok 2 := by decide

/-- Every input built by the utxo loop of `CreateTransaction` takes its
output index from some entry of the utxo map. -/
theorem buildInputs_outputIndex_mem (fromAddr : String) :
    ∀ (utxos : List (String × List Int)) (ins : List TxInput),
      buildInputs fromAddr utxos = GoOutcome.ok ins →
      ∀ inp ∈ ins, ∃ p ∈ utxos, inp.outputIndex ∈ p.2 := by
  intro utxos
  induction utxos with
  | nil =>
    intro ins h inp hm
    simp only [buildInputs] at h
    injection h with h
    subst h
    cases hm
  | cons hd rest ih =>
    intro ins h inp hm
    obtain ⟨txID, utxoIdxs⟩ := hd
    simp only [buildInputs] at h
    cases hdec : hexDecode txID.toList with
    | none => rw [hdec] at h; cases h
    | some txIDBytes =>
      rw [hdec] at h
      cases hrest : buildInputs fromAddr rest with
      | panicked m => rw [hrest] at h; cases h
      | ok more =>
        rw [hrest] at h
        injection h with h
        subst h
        rcases List.mem_append.mp hm with hmap | hmore
        · obtain ⟨idx, hidx, heq⟩ := List.mem_map.mp hmap
          exact ⟨(txID, utxoIdxs), List.mem_cons_self _ _, by rw [← heq]; exact hidx⟩
        · obtain ⟨p, hp, hpi⟩ := ih more hrest inp hmore
          exact ⟨p, List.mem_cons_of_mem _ hp, hpi⟩

/-- C4 (amended): `NewCoinbase(to)` yields exactly one input with an empty
referenced-txID and output index `-1` and exactly one output crediting 100
units to `to`, and `IsCoinbase()` returns true on it; and every transaction
built by `NewTransaction` from a non-empty `spendableOutputs` map **none of
whose referenced output indexes is `-1`** has `IsCoinbase() = false`. -/
theorem coinbase_classification :
    (∀ toAddr : String,
      (CoinbaseTx toAddr).inputs.map (fun i => (i.txID, i.outputIndex)) = [([], -1)] ∧
      (CoinbaseTx toAddr).outputs = [TxOutput.mk 100 toAddr] ∧
      (CoinbaseTx toAddr).IsCoinbase = true) ∧
    (∀ (fromAddr toAddr : String) (amount txoSum : Int)
        (utxos : List (String × List Int)) (tx : Transaction),
      utxos ≠ [] →
      (∀ p ∈ utxos, ∀ i ∈ p.2, i ≠ -1) →
      CreateTransaction fromAddr toAddr amount txoSum utxos = GoOutcome.ok tx →
      tx.IsCoinbase = false) := by
  constructor
  · intro toAddr
    exact ⟨rfl, rfl, rfl⟩
  · intro fromAddr toAddr amount txoSum utxos tx _ hno hok
    simp only [CreateTransaction] at hok
    by_cases hlt : txoSum < amount
    · rw [if_pos hlt] at hok; cases hok
    rw [if_neg hlt] at hok
    cases hbi : buildInputs fromAddr utxos with
    | panicked m => rw [hbi] at hok; cases hok
    | ok ins =>
      rw [hbi] at hok
      injection hok with h
      subst h
      have hins : ∀ inp ∈ ins, inp.outputIndex ≠ -1 := by
        intro inp hm
        obtain ⟨p, hp, hpi⟩ := buildInputs_outputIndex_mem fromAddr utxos ins hbi inp hm
        exact hno p hp _ hpi
      show Transaction.IsCoinbase _ = false
      simp only [Transaction.IsCoinbase, initTransaction]
      match ins, hins with
      | [], _ => rfl
      | [i], hins =>
        have : i.outputIndex ≠ -1 := hins i (List.mem_singleton_self i)
        simp [List.headI, this]
      | i :: j :: rest, _ => simp [List.headI]

/-- Witness for `coinbase_classification`: the coinbase for "A1" classifies
as coinbase, and a concretely built transfer does not. -/
theorem coinbase_classification_witness :
    (CoinbaseTx "A1").IsCoinbase = true ∧
    (CreateTransaction "A" "B" 2 5 [("ab", [0])]).map Transaction.IsCoinbase =
      GoOutcome.ok false := by
  constructor
  · exact (coinbase_classification.1 "A1").2.2
  · have hok : CreateTransaction "A" "B" 2 5 [("ab", [0])] =
        GoOutcome.ok (initTransaction [⟨[171], 0, "A"⟩]
          [TxOutput.mk 2 "B", TxOutput.mk 3 "A"]) := by decide
    have h := coinbase_classification.2 "A" "B" 2 5 [("ab", [0])] _
      (by decide) (by decide) hok
    rw [hok, GoOutcome.map, h]

/-- C4 counterexample: the non-empty spendable-outputs map `{"" ↦ [-1]}`
(an empty hex txID with output index `-1`) makes `NewTransaction` build a
transaction on which `IsCoinbase()` returns **true**, refuting "for every
transaction built by `NewTransaction` from a non-empty spendableOutputs
map, `IsCoinbase()` returns false". -/
theorem coinbase_classification_cex :
    (CreateTransaction "A" "B" 0 0 [("", [-1])]).map Transaction.IsCoinbase =
      GoOutcome.ok true := by decide

/-- Reading back a key just written. -/
theorem storeGet_set_same (s : Store) (k v : List Nat) :
    storeGet (storeSet s k v) k = some v := by
  simp [storeGet, storeSet, List.find?]

/-- Writing one key does not affect reads of another. -/
theorem storeGet_set_ne (s : Store) (k k' v : List Nat) (h : k' ≠ k) :
    storeGet (storeSet s k v) k' = storeGet s k' := by
  have : (k == k') = false := by
    simp only [beq_eq_false_iff_ne, ne_eq]
    exact fun he => h he.symm
  simp [storeGet, storeSet, List.find?, this]

/-- `HasChain` leaves the store unchanged (its badger body only `Get`s). -/
theorem hasChain_frame (s : Store) : (HasChain s).2 = s := by
  simp only [HasChain, runTxn, btxnBind, txnGet, btxnPure]
  cases storeGet s lastHashKeyBytes <;> rfl

/-- `GetLastHash` leaves the store unchanged. -/
theorem getLastHash_frame (s : Store) : (GetLastHash s).2 = s := by
  simp only [GetLastHash, runTxn, btxnBind, txnGet, btxnPure]
  cases storeGet s lastHashKeyBytes <;> rfl

/-- `GetBlockWithHash` leaves the store unchanged. -/
theorem getBlockWithHash_frame (s : Store) (h : List Nat) :
    (GetBlockWithHash s h).2 = s := by
  simp only [GetBlockWithHash, runTxn, btxnBind, txnGet, btxnPure]
  cases storeGet s h with
  | none => rfl
  | some v =>
    dsimp only
    cases DeserializeBlock v <;> rfl

/-- The store after `SaveNewLastBlock`. -/
theorem saveNewLastBlock_store (s : Store) (b : Block) :
    (SaveNewLastBlock s b).2 =
      storeSet (storeSet s b.hash (SerializeBlock b)) lastHashKeyBytes b.hash := rfl

/-- After any `SaveNewLastBlock` the tip key names a hash that is present
as a key of the store. -/
theorem tipValidB_after_save (s : Store) (b : Block) :
    tipValidB (SaveNewLastBlock s b).2 = true := by
  rw [saveNewLastBlock_store]
  unfold tipValidB
  rw [storeGet_set_same]
  dsimp only
  by_cases hb : b.hash = lastHashKeyBytes
  · rw [hb, storeGet_set_same]
    rfl
  · rw [storeGet_set_ne _ _ _ _ hb, storeGet_set_same]
    rfl

/-- C3 (amended): over every sequence of chain-store calls starting from a
state satisfying the tip invariant (in particular from the empty store),
the invariant is preserved: whenever the tip key exists it names a hash
that is itself present as a key.  And for every append of a block whose
hash differs from the reserved tip key bytes `"lastHashKey"`, both writes
of the (single, atomic) update are visible afterwards: the block is stored
under its hash key and the tip key holds that hash. -/
theorem saveNewLastBlock_tip_invariant :
    (∀ s : Store, tipValidB s = true →
      ∀ ops : List ChainOp, tipValidB (runOps s ops) = true) ∧
    (∀ (s : Store) (b : Block), b.hash ≠ lastHashKeyBytes →
      storeGet (SaveNewLastBlock s b).2 b.hash = some (SerializeBlock b) ∧
      storeGet (SaveNewLastBlock s b).2 lastHashKeyBytes = some b.hash) := by
  constructor
  · intro s hs ops
    induction ops generalizing s with
    | nil => exact hs
    | cons op rest ih =>
      apply ih
      cases op with
      | hasChainOp => rw [runOp, hasChain_frame]; exact hs
      | getLastHashOp => rw [runOp, getLastHash_frame]; exact hs
      | getBlockOp h => rw [runOp, getBlockWithHash_frame]; exact hs
      | saveOp b => exact tipValidB_after_save s b
  · intro s b hb
    rw [saveNewLastBlock_store]
    exact ⟨by rw [storeGet_set_ne _ _ _ _ hb, storeGet_set_same],
      storeGet_set_same _ _ _⟩

/-- Witness for `saveNewLastBlock_tip_invariant` on a concrete two-append,
interleaved-reads call sequence and a concrete block. -/
theorem saveNewLastBlock_tip_invariant_witness :
    tipValidB emptyStore = true ∧
    tipValidB (runOps emptyStore
      [ChainOp.saveOp ⟨[7, 7], [], []⟩, ChainOp.hasChainOp,
        ChainOp.getLastHashOp, ChainOp.saveOp ⟨[9], [7, 7], []⟩,
        ChainOp.getBlockOp [9]]) = true ∧
    ([7, 7] ≠ lastHashKeyBytes) ∧
    storeGet (SaveNewLastBlock emptyStore ⟨[7, 7], [], []⟩).2 [7, 7] =
      some (SerializeBlock ⟨[7, 7], [], []⟩) ∧
    storeGet (SaveNewLastBlock emptyStore ⟨[7, 7], [], []⟩).2 lastHashKeyBytes =
      some [7, 7] := by
  refine ⟨by decide, saveNewLastBlock_tip_invariant.1 emptyStore (by decide) _,
    by decide, ?_, ?_⟩
  · exact (saveNewLastBlock_tip_invariant.2 emptyStore ⟨[7, 7], [], []⟩ (by decide)).1
  · exact (saveNewLastBlock_tip_invariant.2 emptyStore ⟨[7, 7], [], []⟩ (by decide)).2

/-- C3 counterexample: appending a block whose hash bytes equal the
reserved tip key `"lastHashKey"` makes the transaction's second write
overwrite its first, so after the append the tip write is visible but the
block-record write is not (`storeGet` at the block's hash key yields the
raw hash bytes, not the serialized block), refuting "either both writes of
an append are visible or neither is". -/
theorem saveNewLastBlock_collision_cex :
    storeGet (SaveNewLastBlock emptyStore ⟨lastHashKeyBytes, [], []⟩).2
        lastHashKeyBytes = some lastHashKeyBytes ∧
    storeGet (SaveNewLastBlock emptyStore ⟨lastHashKeyBytes, [], []⟩).2
        lastHashKeyBytes ≠ some (SerializeBlock ⟨lastHashKeyBytes, [], []⟩) := by
  decide

/-- C7: on a freshly opened (empty) chain store, `HasChain` does not return
`false` — the closure's `badger.ErrKeyNotFound` is fed to
`errutil.HandleErr`, which `log.Panic`s — and `GetLastHash` likewise
`HandleErr`-panics inside its closure instead of returning a `NotFound`
error to the caller. -/
theorem freshStore_reads_fatal :
    (HasChain emptyStore).1 = GoOutcome.panicked "Key not found" ∧
    (GetLastHash emptyStore).1 = GoOutcome.panicked "Key not found" := by
  decide

/-- C10: the chain-store read operations `HasChain`, `GetLastHash` and
`GetBlockWithHash` leave the store state — and hence its set of block keys
and its tip value — unchanged on every store. -/
theorem chainStore_reads_frame (s : Store) (h : List Nat) :
    (HasChain s).2 = s ∧ (GetLastHash s).2 = s ∧ (GetBlockWithHash s h).2 = s :=
  ⟨hasChain_frame s, getLastHash_frame s, getBlockWithHash_frame s h⟩

/-- C8 (amended): for every wallet collection and every address not in the
collection, `GetWallet` fails — but by dereferencing the nil pointer that a
Go map lookup on an absent key yields, a process-fatal runtime panic, not a
`NotFound` error value returned to the caller (the Go signature returns
only `Wallet`); it never silently returns a default/zero `Wallet` value. -/
theorem getWallet_absent_fatal (ws : Wallets) (address : String)
    (h : ws.wallets.find? (fun p => p.1 == address) = none) :
    ws.GetWallet address =
      GoOutcome.panicked "runtime error: invalid memory address or nil pointer dereference" := by
  simp [Wallets.GetWallet, h]

/-- Witness for `getWallet_absent_fatal` on a concrete one-entry collection
and an address not in it. -/
theorem getWallet_absent_fatal_witness :
    (Wallets.mk [("ADDR1", ⟨5, [1, 2]⟩)]).wallets.find?
        (fun p => p.1 == "ADDR2") = none ∧
    (Wallets.mk [("ADDR1", ⟨5, [1, 2]⟩)]).GetWallet "ADDR2" =
      GoOutcome.panicked "runtime error: invalid memory address or nil pointer dereference" :=
  ⟨by decide, getWallet_absent_fatal (Wallets.mk [("ADDR1", ⟨5, [1, 2]⟩)]) "ADDR2" (by decide)⟩

/-- C8 counterexample: looking up "A1" in the empty wallet collection does
not return a `NotFound` error value to the caller — the call's outcome is a
process-fatal nil-pointer-dereference panic, refuting "fails with a
NotFound error returned to the caller ... never crashes". -/
theorem getWallet_absent_cex :
    (Wallets.mk []).GetWallet "A1" =
      GoOutcome.panicked "runtime error: invalid memory address or nil pointer dereference" := by
  decide

/-- C9 (amended): when the wallet snapshot file does not exist, `Init()`
returns the empty collection **together with the not-exist error** — the
missing file is reported to the caller, not swallowed — and a read/decode
failure of an existing file is process-fatal via `errutil.HandleErr` rather
than surfaced to the caller; only a successful decode returns a collection
with a nil error. -/
theorem initWallets_behavior :
    InitWallets none = GoOutcome.ok (Wallets.mk [], some GoError.notExist) ∧
    (∀ data : List Nat, decodeWallets data = none →
      InitWallets (some data) = GoOutcome.panicked "gob: wallets decode failed") ∧
    (∀ (data : List Nat) (ws : List (String × Wallet)), decodeWallets data = some ws →
      InitWallets (some data) = GoOutcome.ok (Wallets.mk ws, none)) := by
  refine ⟨rfl, ?_, ?_⟩
  · intro data h
    simp [InitWallets, LoadFromFile, h]
  · intro data ws h
    simp [InitWallets, LoadFromFile, h]

/-- Witness for `initWallets_behavior`: the empty byte string fails to
decode, so loading it is fatal. -/
theorem initWallets_behavior_witness :
    decodeWallets [] = none ∧
    InitWallets (some []) = GoOutcome.panicked "gob: wallets decode failed" :=
  ⟨by decide, initWallets_behavior.2.1 [] (by decide)⟩

/-- C9 counterexample: with the snapshot file missing, `Init()` does not
"succeed without reporting an error": it returns the (non-nil) not-exist
error alongside the empty collection. -/
theorem initWallets_missing_file_cex :
    InitWallets none = GoOutcome.ok (Wallets.mk [], some GoError.notExist) ∧
    (some GoError.notExist ≠ (none : Option GoError)) := by
  decide

/-- The fuelled digit expansion agrees with `Nat.digits` once the fuel
covers the number. -/
theorem digitsFuel_eq_digits (b : Nat) (hb : 1 < b) :
    ∀ (fuel n : Nat), n ≤ fuel → digitsFuel b fuel n = Nat.digits b n := by
  intro fuel
  induction fuel with
  | zero =>
    intro n hn
    have h0 : n = 0 := Nat.le_zero.mp hn
    subst h0
    simp [digitsFuel]
  | succ f ih =>
    intro n hn
    by_cases h0 : n = 0
    · subst h0; simp [digitsFuel]
    · rw [digitsFuel, if_neg h0, Nat.digits_def' hb (Nat.pos_of_ne_zero h0)]
      congr 1
      apply ih
      have hlt : n / b < n := Nat.div_lt_self (Nat.pos_of_ne_zero h0) hb
      omega

/-- `digitsLE` agrees with Mathlib's `Nat.digits` for every base above 1. -/
theorem digitsLE_eq_digits (b : Nat) (hb : 1 < b) (n : Nat) :
    digitsLE b n = Nat.digits b n :=
  digitsFuel_eq_digits b hb n n le_rfl

/-- Decoding a base58 digit character recovers the digit. -/
theorem b58DecodeChar_encodeChar : ∀ d, d < 58 → b58DecodeChar (b58EncodeChar d) = d := by
  decide

/-- Only the zero digit encodes to the character `'1'`. -/
theorem b58EncodeChar_ne_one : ∀ d, d < 58 → 0 < d → (b58EncodeChar d == '1') = false := by
  decide

/-- The zero-byte head of a byte list is literally a replicate of zeros. -/
theorem takeWhile_zeros_replicate (l : List Nat) :
    l.takeWhile (fun b => b == 0) =
      List.replicate (l.takeWhile (fun b => b == 0)).length 0 := by
  induction l with
  | nil => rfl
  | cons a t ih =>
    rw [List.takeWhile_cons]
    by_cases ha : (a == 0) = true
    · have ha0 : a = 0 := by simpa using ha
      subst ha0
      rw [if_pos (by simp)]
      simp only [List.length_cons, List.replicate_succ]
      exact congrArg (List.cons 0) ih
    · rw [if_neg ha]
      rfl

/-- After dropping leading zero bytes the head, if any, is nonzero. -/
theorem head_dropWhile_zeros (l : List Nat) :
    ∀ x ∈ (l.dropWhile (fun b => b == 0)).head?, x ≠ 0 := by
  intro x hx
  have h := List.head?_dropWhile_not (fun b => b == 0) l
  cases hh : (l.dropWhile (fun b => b == 0)).head? with
  | none => rw [hh] at hx; cases hx
  | some y =>
    rw [hh] at hx h
    have hxy : x = y := by cases hx; rfl
    subst hxy
    simpa using h

/-- A list of zero digits has value zero. -/
theorem ofDigits_replicate_zero (b : Nat) :
    ∀ n, Nat.ofDigits b (List.replicate n 0) = 0 := by
  intro n
  induction n with
  | zero => rfl
  | succ k ih => simp [List.replicate_succ, Nat.ofDigits_cons, ih]

/-- Leading zero bytes do not contribute to the big-endian value. -/
theorem bytesToNat_dropZeros (l : List Nat) :
    bytesToNat l = bytesToNat (l.dropWhile (fun b => b == 0)) := by
  conv_lhs => rw [← List.takeWhile_append_dropWhile (fun b => b == 0) l]
  unfold bytesToNat
  rw [List.reverse_append, Nat.ofDigits_append, takeWhile_zeros_replicate,
    List.reverse_replicate, ofDigits_replicate_zero]
  simp

/-- Byte expansion inverts byte interpretation on byte lists without a
leading zero. -/
theorem natToBytes_bytesToNat (r : List Nat) (hlt : ∀ x ∈ r, x < 256)
    (hhead : ∀ x ∈ r.head?, x ≠ 0) :
    natToBytes (bytesToNat r) = r := by
  unfold natToBytes bytesToNat
  rw [digitsLE_eq_digits 256 (by norm_num)]
  rw [Nat.digits_ofDigits 256 (by norm_num) r.reverse
    (fun x hx => hlt x (List.mem_reverse.mp hx)) ?_]
  · exact List.reverse_reverse r
  · intro hne h0
    have h1 : r.reverse.getLast? = r.head? := List.getLast?_reverse r
    rw [List.getLast?_eq_getLast _ hne, h0] at h1
    exact hhead 0 h1.symm rfl

/-- Mapping a constant over a list is a replicate. -/
theorem map_const_replicate {α β : Type} (c : β) (l : List α) :
    l.map (fun _ => c) = List.replicate l.length c := by
  induction l with
  | nil => rfl
  | cons a t ih => simp [List.replicate_succ, ih]

/-- `takeWhile`/`dropWhile` on a block of `'1'`s followed by a list that
does not start with `'1'`. -/
theorem takeWhile_ones_append (k : Nat) (l : List Char)
    (hl : ∀ x ∈ l.head?, (x == '1') = false) :
    (List.replicate k '1' ++ l).takeWhile (fun c => c == '1') = List.replicate k '1' ∧
    (List.replicate k '1' ++ l).dropWhile (fun c => c == '1') = l := by
  induction k with
  | zero =>
    simp only [List.replicate, List.nil_append]
    cases l with
    | nil => exact ⟨rfl, rfl⟩
    | cons c t =>
      have hc : (c == '1') = false := hl c rfl
      rw [List.takeWhile_cons, List.dropWhile_cons, if_neg (by simp [hc]),
        if_neg (by simp [hc])]
      exact ⟨rfl, rfl⟩
  | succ m ih =>
    simp only [List.replicate_succ, List.cons_append]
    rw [List.takeWhile_cons, List.dropWhile_cons, if_pos (by simp), if_pos (by simp)]
    exact ⟨congrArg (List.cons '1') ih.1, ih.2⟩

/-- Base58 decoding inverts base58 encoding on byte lists. -/
theorem base58_roundtrip (bs : List Nat) (hlt : ∀ x ∈ bs, x < 256) :
    Base58Decode (Base58Encode bs) = bs := by
  unfold Base58Encode Base58Decode
  have hbsr : bs.takeWhile (fun b => b == 0) ++ bs.dropWhile (fun b => b == 0) = bs :=
    List.takeWhile_append_dropWhile _ _
  have hn : bytesToNat bs = bytesToNat (bs.dropWhile (fun b => b == 0)) :=
    bytesToNat_dropZeros bs
  have hrlt : ∀ x ∈ bs.dropWhile (fun b => b == 0), x < 256 := fun x hx =>
    hlt x ((List.dropWhile_sublist _).subset hx)
  have hd58 : ∀ d ∈ Nat.digits 58 (bytesToNat bs), d < 58 := fun d hd =>
    Nat.digits_lt_base (by norm_num) hd
  have hb58 : natToB58 (bytesToNat bs) = (Nat.digits 58 (bytesToNat bs)).reverse := by
    unfold natToB58
    rw [digitsLE_eq_digits 58 (by norm_num)]
  -- the encoded character list splits as ones ++ digit characters
  have hhead : ∀ x ∈ ((natToB58 (bytesToNat bs)).map b58EncodeChar).head?,
      (x == '1') = false := by
    intro x hx
    rw [hb58, List.head?_map] at hx
    cases hh : (Nat.digits 58 (bytesToNat bs)).reverse.head? with
    | none => rw [hh] at hx; cases hx
    | some d =>
      rw [hh] at hx
      have hxd : x = b58EncodeChar d := by cases hx; rfl
      subst hxd
      have hdm : d ∈ Nat.digits 58 (bytesToNat bs) := by
        have : d ∈ (Nat.digits 58 (bytesToNat bs)).reverse :=
          List.mem_of_mem_head? hh
        exact List.mem_reverse.mp this
      have hd0 : d ≠ 0 := by
        have hnz : bytesToNat bs ≠ 0 := by
          intro hz
          rw [hz] at hh
          simp [Nat.digits_zero] at hh
        have hgl := Nat.getLast_digit_ne_zero 58 hnz
        have : (Nat.digits 58 (bytesToNat bs)).reverse.head? =
            some ((Nat.digits 58 (bytesToNat bs)).getLast
              (Nat.digits_ne_nil_iff_ne_zero.mpr hnz)) := by
          rw [← List.getLast?_reverse, List.reverse_reverse,
            List.getLast?_eq_getLast]
        rw [this] at hh
        injection hh with hh
        exact hh ▸ hgl
      exact b58EncodeChar_ne_one d (hd58 d hdm) (Nat.pos_of_ne_zero hd0)
  have hsplit := takeWhile_ones_append
    (bs.takeWhile (fun b => b == 0)).length
    ((natToB58 (bytesToNat bs)).map b58EncodeChar) hhead
  show ((String.mk _).toList.takeWhile _).map _ ++
      natToBytes (b58ToNat (((String.mk _).toList.dropWhile _).map b58DecodeChar)) = bs
  have htl : (String.mk ((bs.takeWhile (fun b => b == 0)).map (fun _ => '1') ++
      (natToB58 (bytesToNat bs)).map b58EncodeChar)).toList =
      List.replicate (bs.takeWhile (fun b => b == 0)).length '1' ++
        (natToB58 (bytesToNat bs)).map b58EncodeChar := by
    rw [map_const_replicate]
    rfl
  rw [htl, hsplit.1, hsplit.2]
  -- zeros part
  rw [map_const_replicate]
  rw [List.length_replicate]
  -- digits part: decode the digit characters back
  have hdigs : ((natToB58 (bytesToNat bs)).map b58EncodeChar).map b58DecodeChar =
      (Nat.digits 58 (bytesToNat bs)).reverse := by
    rw [hb58, List.map_map]
    have hcong : ∀ d ∈ (Nat.digits 58 (bytesToNat bs)).reverse,
        (b58DecodeChar ∘ b58EncodeChar) d = d := fun d hd =>
      b58DecodeChar_encodeChar d (hd58 d (List.mem_reverse.mp hd))
    rw [List.map_congr_left hcong]
    simp
  rw [hdigs]
  have hval : b58ToNat (Nat.digits 58 (bytesToNat bs)).reverse = bytesToNat bs := by
    unfold b58ToNat
    rw [List.reverse_reverse, Nat.ofDigits_digits]
  rw [hval, hn, natToBytes_bytesToNat _ hrlt (head_dropWhile_zeros bs)]
  -- reassemble
  have hzr : List.replicate (bs.takeWhile (fun b => b == 0)).length 0 =
      bs.takeWhile (fun b => b == 0) := (takeWhile_zeros_replicate bs).symm
  rw [hzr, hbsr]

/-- The SHA-256 stand-in produces bytes. -/
theorem sha256Model_lt (l : List Nat) : ∀ x ∈ sha256Model l, x < 256 := by
  intro x hx
  unfold sha256Model at hx
  obtain ⟨i, _, hf⟩ := List.mem_map.mp hx
  rw [← hf]
  exact Nat.mod_lt _ (by norm_num)

/-- The SHA-256 stand-in produces 32 bytes. -/
theorem sha256Model_length (l : List Nat) : (sha256Model l).length = 32 := by
  simp [sha256Model]

/-- The RIPEMD-160 stand-in produces bytes. -/
theorem ripemd160Model_lt (l : List Nat) : ∀ x ∈ ripemd160Model l, x < 256 := by
  intro x hx
  unfold ripemd160Model at hx
  obtain ⟨i, _, hf⟩ := List.mem_map.mp hx
  rw [← hf]
  exact Nat.mod_lt _ (by norm_num)

/-- The checksum is 4 bytes long. -/
theorem checksum_length (l : List Nat) : (checksum l).length = 4 := by
  simp [checksum, ChecksumLen, List.length_take, sha256Model_length]

/-- The checksum consists of bytes. -/
theorem checksum_lt (l : List Nat) : ∀ x ∈ checksum l, x < 256 := by
  intro x hx
  exact sha256Model_lt _ x (List.take_subset _ _ hx)

/-- C5: `ValidateAddress` is **not** total — on the empty string (whose
base58 decoding is empty, hence shorter than the 4 checksum bytes) the Go
slice `decodedAddress[len-ChecksumLen:]` has a negative bound and the call
fails with an unhandled runtime panic instead of returning `false`. -/
theorem validateAddress_short_input_fatal :
    ValidateAddress "" = GoOutcome.panicked "runtime error: slice bounds out of range" := by
  decide

/-- C6: for every public key byte string, validating the address derived
from its hash (version byte, pub key hash, then the 4-byte checksum of
version-plus-hash, base58-encoded) succeeds and returns `true`. -/
theorem validateAddress_getAddress (publicKey : List Nat) :
    ValidateAddress (GetAddress publicKey) = GoOutcome.ok true := by
  unfold GetAddress ValidateAddress
  have hlt : ∀ x ∈ (version :: HashPubKey publicKey) ++
      checksum (version :: HashPubKey publicKey), x < 256 := by
    intro x hx
    rcases List.mem_append.mp hx with h | h
    · rcases List.mem_cons.mp h with h0 | h0
      · rw [h0]; norm_num [version]
      · exact ripemd160Model_lt _ x h0
    · exact checksum_lt _ x h
  rw [base58_roundtrip _ hlt]
  have hlen4 : (checksum (version :: HashPubKey publicKey)).length = 4 :=
    checksum_length _
  have hlen : ((version :: HashPubKey publicKey) ++
      checksum (version :: HashPubKey publicKey)).length =
      (version :: HashPubKey publicKey).length + 4 := by
    rw [List.length_append, hlen4]
  rw [if_neg (by rw [hlen]; simp [ChecksumLen])]
  have hsub : ((version :: HashPubKey publicKey) ++
      checksum (version :: HashPubKey publicKey)).length - ChecksumLen =
      (version :: HashPubKey publicKey).length := by
    rw [hlen]; simp [ChecksumLen]
  rw [hsub, List.drop_left, List.take_left]
  simp

end GoBlockchain
